import Mathlib

/-!
Verification development for the NewScanmem memory-scanner core.

The scan engine, matcher routines, match storage, maps parser, match
collector, scanner facade and endianness codecs are shallowly embedded
below and the testable properties of the specification are proved about
the embedding.  Machine integers are modelled as `Nat`/`Int` with explicit
byte decomposition where byte order matters, target memory as byte lists
and functions, and fallible operations return `Except`.
-/

namespace NewScanmem

/-! ## Match flags

Modelled from the spec (section 3, MatchFlags): a bitset describing which
widths/shapes a cell matched.  `EMPTY` is the all-zero bitset; a cell whose
bitset is `EMPTY` is considered not a match. -/

/-- MatchFlags is a bitset; we model it as a natural number bitmask exactly
as a C enum-flags type holds it. -/
abbrev MatchFlags := Nat

/-- Modelled from the spec: the empty bitset (cell is not a match). -/
def MatchFlags.EMPTY : MatchFlags := 0

/-- Modelled from the spec: 8-bit integer width flag. -/
def MatchFlags.B8 : MatchFlags := 1

/-- Modelled from the spec: 16-bit integer width flag. -/
def MatchFlags.B16 : MatchFlags := 2

/-- Modelled from the spec: 32-bit integer width flag. -/
def MatchFlags.B32 : MatchFlags := 4

/-- Modelled from the spec: 64-bit integer width flag. -/
def MatchFlags.B64 : MatchFlags := 8

/-- Modelled from the spec: 32-bit float width flag. -/
def MatchFlags.F32 : MatchFlags := 16

/-- Modelled from the spec: 64-bit float width flag. -/
def MatchFlags.F64 : MatchFlags := 32

/-- Modelled from the spec: string match shape flag. -/
def MatchFlags.STRING : MatchFlags := 64

/-- Modelled from the spec: byte-array match shape flag. -/
def MatchFlags.BYTE_ARRAY : MatchFlags := 128

/-- Modelled from the spec: the width flag corresponding to a numeric match
width in bytes (1, 2, 4 or 8). -/
def widthFlag : Nat → MatchFlags
  | 1 => MatchFlags.B8
  | 2 => MatchFlags.B16
  | 4 => MatchFlags.B32
  | 8 => MatchFlags.B64
  | _ => MatchFlags.EMPTY

/-- Modelled from the spec: the float width flag corresponding to a float
match width in bytes (4 or 8). -/
def floatFlag : Nat → MatchFlags
  | 4 => MatchFlags.F32
  | 8 => MatchFlags.F64
  | _ => MatchFlags.EMPTY

/-! ## Endianness codec

Modelled from the spec (section 2 "Endian codec" and testable property
"Byte-order round-trip"): byte-swap primitives and host-to-little/network
conversions.  The utils/endianness implementation is not in the source
tree; the definitions follow the spec and the unit tests in
`src/test/test_endianness.cpp`.  An `n`-byte unsigned integer is modelled
as a `Nat` below `256 ^ n`; the host byte order is an explicit parameter
`hostBig` (the C++ decides it with `isBigEndian()` at compile time). -/

/-- Little-endian byte decomposition of an unsigned integer into `n` bytes. -/
def toLEBytes : Nat → Nat → List Nat
  | 0, _ => []
  | n + 1, x => (x % 256) :: toLEBytes n (x / 256)

/-- Recomposition of a little-endian byte list into an unsigned integer. -/
def fromLEBytes : List Nat → Nat
  | [] => 0
  | b :: bs => b + 256 * fromLEBytes bs

/-- Modelled from the spec: `swapBytesIntegral` reverses the byte order of
an `n`-byte unsigned integer. -/
def swapBytesIntegral (n : Nat) (x : Nat) : Nat :=
  fromLEBytes ((toLEBytes n x).reverse)

/-- Modelled from the spec: convert a host-order value to little-endian. -/
def hostToLittleEndian (hostBig : Bool) (n x : Nat) : Nat :=
  if hostBig then swapBytesIntegral n x else x

/-- Modelled from the spec: convert a little-endian value to host order. -/
def littleEndianToHost (hostBig : Bool) (n x : Nat) : Nat :=
  if hostBig then swapBytesIntegral n x else x

/-- Modelled from the spec: convert a host-order value to network (big
endian) order. -/
def hostToNetwork (hostBig : Bool) (n x : Nat) : Nat :=
  if hostBig then x else swapBytesIntegral n x

/-- Modelled from the spec: convert a network-order value to host order. -/
def networkToHost (hostBig : Bool) (n x : Nat) : Nat :=
  if hostBig then x else swapBytesIntegral n x

theorem toLEBytes_length (n x : Nat) : (toLEBytes n x).length = n := by
  induction n generalizing x with
  | zero => rfl
  | succ n ih => simp [toLEBytes, ih]

theorem toLEBytes_lt (n x : Nat) : ∀ b ∈ toLEBytes n x, b < 256 := by
  induction n generalizing x with
  | zero => intro b hb; cases hb
  | succ n ih =>
    intro b hb
    rcases List.mem_cons.mp hb with h | h
    · subst h; exact Nat.mod_lt _ (by omega)
    · exact ih (x / 256) b h

theorem fromLEBytes_toLEBytes (n x : Nat) (h : x < 256 ^ n) :
    fromLEBytes (toLEBytes n x) = x := by
  induction n generalizing x with
  | zero => simp [pow_zero] at h; simp [toLEBytes, fromLEBytes, h]
  | succ n ih =>
    have hdiv : x / 256 < 256 ^ n := by
      apply Nat.div_lt_of_lt_mul
      calc x < 256 ^ (n + 1) := h
        _ = 256 * 256 ^ n := by ring
    simp only [toLEBytes, fromLEBytes, ih (x / 256) hdiv]
    omega

theorem toLEBytes_fromLEBytes (n : Nat) (l : List Nat) (hlen : l.length = n)
    (hlt : ∀ b ∈ l, b < 256) : toLEBytes n (fromLEBytes l) = l := by
  induction l generalizing n with
  | nil => subst hlen; rfl
  | cons b bs ih =>
    subst hlen
    have hb : b < 256 := hlt b (List.mem_cons_self b bs)
    have hmod : (b + 256 * fromLEBytes bs) % 256 = b := by omega
    have hdiv : (b + 256 * fromLEBytes bs) / 256 = fromLEBytes bs := by omega
    simp only [fromLEBytes, List.length_cons, toLEBytes, hmod, hdiv]
    exact congrArg (b :: ·)
      (ih bs.length rfl (fun c hc => hlt c (List.mem_cons_of_mem b hc)))

theorem swapBytesIntegral_involutive (n x : Nat) (h : x < 256 ^ n) :
    swapBytesIntegral n (swapBytesIntegral n x) = x := by
  unfold swapBytesIntegral
  have hlen : (toLEBytes n x).reverse.length = n := by
    simp [toLEBytes_length]
  have hlt : ∀ b ∈ (toLEBytes n x).reverse, b < 256 := by
    intro b hb
    exact toLEBytes_lt n x b (List.mem_reverse.mp hb)
  rw [toLEBytes_fromLEBytes n _ hlen hlt, List.reverse_reverse,
    fromLEBytes_toLEBytes n x h]

/-- C9: for every 16-, 32- or 64-bit (indeed every `n`-byte) unsigned
integer `x`, the endianness codecs round-trip:
`littleEndianToHost (hostToLittleEndian x) = x`, likewise for network
order, and double application of `swapBytesIntegral` is the identity.
This holds on both little- and big-endian hosts. -/
theorem endianness_roundtrip (hostBig : Bool) (n x : Nat) (h : x < 256 ^ n) :
    littleEndianToHost hostBig n (hostToLittleEndian hostBig n x) = x
    ∧ networkToHost hostBig n (hostToNetwork hostBig n x) = x
    ∧ swapBytesIntegral n (swapBytesIntegral n x) = x := by
  refine ⟨?_, ?_, swapBytesIntegral_involutive n x h⟩ <;>
    cases hostBig <;>
      simp [littleEndianToHost, hostToLittleEndian, networkToHost,
        hostToNetwork, swapBytesIntegral_involutive n x h]

/-- Witness for C9: the 32-bit test vector 0x12345678 on a big-endian host
(the branch that actually exercises the byte swap). -/
theorem endianness_roundtrip_witness :
    littleEndianToHost true 4 (hostToLittleEndian true 4 0x12345678) = 0x12345678
    ∧ networkToHost true 4 (hostToNetwork true 4 0x12345678) = 0x12345678
    ∧ swapBytesIntegral 4 (swapBytesIntegral 4 0x12345678) = 0x12345678 :=
  endianness_roundtrip true 4 0x12345678 (by decide)

example : swapBytesIntegral 4 0x12345678 = 0x78563412 := by decide

example : swapBytesIntegral 2 0xABCD = 0xCDAB := by decide

/-! ## Match storage

Modelled from the spec (section 3): cells, swaths and the matches array. -/

/-- Modelled from the spec: one tracked target byte, carrying the old
snapshot byte and a match-flags bitset. -/
structure OldValueAndMatchInfo where
  oldByte : Nat
  matchInfo : MatchFlags
deriving DecidableEq, Repr, Inhabited

/-- Modelled from the spec: a contiguous run of tracked addresses with a
base target address `firstByteInChild` and a vector of cells indexed by
offset from it. -/
structure MatchesAndOldValuesSwath where
  firstByteInChild : Nat
  data : List OldValueAndMatchInfo
deriving DecidableEq, Repr, Inhabited

/-- Modelled from the spec: the ordered sequence of swaths owned by one
Scanner. -/
structure MatchesAndOldValuesArray where
  swaths : List MatchesAndOldValuesSwath
deriving DecidableEq, Repr, Inhabited

/-- Number of cells of one swath whose `matchInfo` is not `EMPTY`. -/
def swathMatchCount (s : MatchesAndOldValuesSwath) : Nat :=
  (s.data.filter (fun c => c.matchInfo != MatchFlags.EMPTY)).length

/-- Modelled from the spec (4.7): the match count is always the number of
cells whose `matchInfo` is not `EMPTY`, summed across all swaths. -/
def countMatches (a : MatchesAndOldValuesArray) : Nat :=
  (a.swaths.map swathMatchCount).sum

/-! ## Scan engine

Modelled from the spec (4.5 and 4.6).  A quiescent target is a list of
regions, each carrying its start address and the bytes the kernel returned
for it.  The matcher routine produced by the factory is abstracted as a
pure function from the window bytes to `(matchedBytes, flags)`; the claims
about the engines hold for every routine. -/

/-- Modelled from the spec: a region selected for scanning, with the bytes
it holds on the quiescent target. -/
structure TargetRegion where
  start : Nat
  bytes : List Nat
deriving DecidableEq, Repr, Inhabited

/-- Modelled from the spec (section 6): the scan statistics returned by
both drivers. -/
structure ScanStats where
  regionsVisited : Nat
  bytesScanned : Nat
  matchesFound : Nat
deriving DecidableEq, Repr, Inhabited

/-- Modelled from the spec (4.5 first scan): iterate addresses from region
start to region end in increments of `step`; at each offset read a window
of `min 8 (end - addr)` bytes, invoke the matcher, and if `matched > 0`
append a cell holding the first byte of the window and its flags.  The
swath's `firstByteInChild` is set the first time the region contributes a
match.  `blockSize` only batches kernel reads and does not affect the
output, so it is not a parameter of the model. -/
def scanRegion (routine : List Nat → Nat × MatchFlags) (step : Nat)
    (r : TargetRegion) : MatchesAndOldValuesSwath :=
  let offsets := (List.range r.bytes.length).filter (fun o => o % step == 0)
  let hits := offsets.filterMap (fun o =>
    let window := (r.bytes.drop o).take 8
    let res := routine window
    if res.fst > 0 then
      some (o, OldValueAndMatchInfo.mk (window.headD 0) res.snd)
    else none)
  { firstByteInChild := r.start + ((hits.map Prod.fst).headD 0),
    data := hits.map Prod.snd }

/-- Modelled from the spec (4.5): the sequential first-scan driver visits
regions in map-file order and produces one swath per region visited,
together with the scan statistics. -/
def runScan (routine : List Nat → Nat × MatchFlags) (step : Nat)
    (regions : List TargetRegion) : ScanStats × MatchesAndOldValuesArray :=
  let swaths := regions.map (scanRegion routine step)
  ({ regionsVisited := regions.length,
     bytesScanned := (regions.map (fun r => r.bytes.length)).sum,
     matchesFound := (swaths.map swathMatchCount).sum },
   ⟨swaths⟩)

/-- Contiguous chunking of a list: `chunksOf c l` splits `l` into
contiguous chunks of size `c + 1` (the last possibly shorter), preserving
order.  The fuel argument of the worker keeps the recursion structural
(it is always instantiated with the list length). -/
def chunksOfAux {α : Type _} (c : Nat) : Nat → List α → List (List α)
  | 0, _ => []
  | _, [] => []
  | fuel + 1, x :: xs => (x :: xs.take c) :: chunksOfAux c fuel (xs.drop c)

/-- Contiguous chunking of a list into chunks of size `c + 1`. -/
def chunksOf {α : Type _} (c : Nat) (l : List α) : List (List α) :=
  chunksOfAux c l.length l

theorem chunksOfAux_flatten {α : Type _} (c fuel : Nat) (l : List α)
    (h : l.length ≤ fuel) : (chunksOfAux c fuel l).flatten = l := by
  induction fuel generalizing l with
  | zero =>
    have hl : l = [] := List.eq_nil_of_length_eq_zero (Nat.le_zero.mp h)
    rw [hl]
    rfl
  | succ fuel ih =>
    match l with
    | [] => rfl
    | x :: xs =>
      have hle : (xs.drop c).length ≤ fuel := by
        simp only [List.length_drop]
        simp only [List.length_cons] at h
        omega
      rw [chunksOfAux, List.flatten_cons, ih (xs.drop c) hle]
      simp [List.take_append_drop]

theorem chunksOf_flatten {α : Type _} (c : Nat) (l : List α) :
    (chunksOf c l).flatten = l :=
  chunksOfAux_flatten c l.length l (Nat.le_refl _)

/-- Modelled from the spec (4.6): the partitioning of the region list
across workers is static and deterministic given the worker count:
contiguous chunks in the original region order. -/
def partitionRegions {α : Type _} (workerCount : Nat) (regions : List α) :
    List (List α) :=
  chunksOf ((regions.length + workerCount - 1) / max 1 workerCount) regions

/-- Modelled from the spec (4.6): after all workers complete, the driver
concatenates the per-worker arrays in the original region order and sums
the per-worker statistics. -/
def mergeWorkerOutputs (outs : List (ScanStats × MatchesAndOldValuesArray)) :
    ScanStats × MatchesAndOldValuesArray :=
  ({ regionsVisited := (outs.map (fun o => o.fst.regionsVisited)).sum,
     bytesScanned := (outs.map (fun o => o.fst.bytesScanned)).sum,
     matchesFound := (outs.map (fun o => o.fst.matchesFound)).sum },
   ⟨(outs.map (fun o => o.snd.swaths)).flatten⟩)

/-- Modelled from the spec (4.6): each worker produces a per-worker matches
array using exactly the same algorithm as the sequential engine; no match
storage is shared; the driver merges after all workers finish. -/
def runScanParallel (routine : List Nat → Nat × MatchFlags)
    (step workerCount : Nat) (regions : List TargetRegion) :
    ScanStats × MatchesAndOldValuesArray :=
  mergeWorkerOutputs
    ((partitionRegions workerCount regions).map (runScan routine step))

theorem sum_map_sum_map {α : Type _} (f : α → Nat) (P : List (List α)) :
    (P.map (fun p => (p.map f).sum)).sum = (P.flatten.map f).sum := by
  rw [List.map_flatten, List.sum_flatten, List.map_map]
  rfl

theorem mergeWorkerOutputs_map_runScan (routine : List Nat → Nat × MatchFlags)
    (step : Nat) (P : List (List TargetRegion)) :
    mergeWorkerOutputs (P.map (runScan routine step))
      = runScan routine step P.flatten := by
  unfold mergeWorkerOutputs runScan
  simp only [List.map_map, Function.comp_def]
  refine Prod.ext ?_ ?_
  · show ScanStats.mk _ _ _ = ScanStats.mk _ _ _
    refine congrArg₂ (ScanStats.mk · · _) ?_ ?_ |>.trans (congrArg _ ?_)
    · rw [List.length_flatten]
    · rw [← sum_map_sum_map (fun r => r.bytes.length) P]
    · rw [← sum_map_sum_map (fun r => swathMatchCount (scanRegion routine step r)) P]
  · show MatchesAndOldValuesArray.mk _ = MatchesAndOldValuesArray.mk _
    refine congrArg _ ?_
    rw [List.map_flatten]


/-- C1: for every matcher routine, step, worker count and quiescent target,
the parallel scan driver produces exactly the sequential result: the same
`ScanStats` (regionsVisited, bytesScanned, matches found), the same number
of swaths, and for every swath the same `firstByteInChild` base address and
the same `matchInfo` in every cell — the outputs are equal as values. -/
theorem runScanParallel_equals_runScan (routine : List Nat → Nat × MatchFlags)
    (step workerCount : Nat) (regions : List TargetRegion) :
    runScanParallel routine step workerCount regions
      = runScan routine step regions := by
  unfold runScanParallel
  rw [mergeWorkerOutputs_map_runScan]
  unfold partitionRegions
  rw [chunksOf_flatten]

/-- C10: after every completed scan, sequential or parallel, the matches
array holds exactly one swath per region visited — even for a region none
of whose addresses matched — so the number of swaths equals
`ScanStats.regionsVisited`, identically for both engines. -/
theorem swaths_size_eq_regionsVisited (routine : List Nat → Nat × MatchFlags)
    (step workerCount : Nat) (regions : List TargetRegion) :
    (runScan routine step regions).snd.swaths.length
        = (runScan routine step regions).fst.regionsVisited
    ∧ (runScanParallel routine step workerCount regions).snd.swaths.length
        = (runScanParallel routine step workerCount regions).fst.regionsVisited := by
  constructor
  · simp [runScan]
  · unfold runScanParallel
    rw [mergeWorkerOutputs_map_runScan]
    simp [runScan, List.map_map, Function.comp_def, List.length_map]

/-! ## Narrowing scan

Modelled from the spec (4.5 narrowing scan): for each swath, for each cell
whose `matchInfo` is non-empty, re-read the current target byte, build a
window spanning the cell plus up-to-8 following bytes, and invoke the
matcher with the stored old cell.  If the new `matchInfo` is empty the
cell is cleared; otherwise the new flags replace the old, and `oldByte` is
updated only for `MATCH_UPDATE`.  Swaths that end up entirely empty are
dropped; adjacent non-empty swaths are not re-merged.  The current
contents of the target are modelled as a function `mem` from addresses to
bytes; the narrowing matcher routine is abstracted as a pure function of
the window and the stored old cell. -/

/-- Narrow a single tracked cell at address `addr`; holes (`EMPTY` cells)
are skipped and stay holes. -/
def narrowCell (routine : List Nat → OldValueAndMatchInfo → Nat × MatchFlags)
    (mem : Nat → Nat) (isUpdate : Bool) (addr : Nat)
    (c : OldValueAndMatchInfo) : OldValueAndMatchInfo :=
  if c.matchInfo = MatchFlags.EMPTY then c
  else
    let window := (List.range 8).map (fun i => mem (addr + i))
    let res := routine window c
    if res.snd = MatchFlags.EMPTY then { c with matchInfo := MatchFlags.EMPTY }
    else { oldByte := if isUpdate then mem addr else c.oldByte,
           matchInfo := res.snd }

/-- Narrow the cells of one swath, walking addresses upward from `addr`. -/
def narrowCells (routine : List Nat → OldValueAndMatchInfo → Nat × MatchFlags)
    (mem : Nat → Nat) (isUpdate : Bool) :
    Nat → List OldValueAndMatchInfo → List OldValueAndMatchInfo
  | _, [] => []
  | addr, c :: cs =>
    narrowCell routine mem isUpdate addr c
      :: narrowCells routine mem isUpdate (addr + 1) cs

/-- Narrow one swath in place. -/
def narrowSwath (routine : List Nat → OldValueAndMatchInfo → Nat × MatchFlags)
    (mem : Nat → Nat) (isUpdate : Bool) (s : MatchesAndOldValuesSwath) :
    MatchesAndOldValuesSwath :=
  { s with data := narrowCells routine mem isUpdate s.firstByteInChild s.data }

/-- Modelled from the spec (4.5): the narrowing-scan driver narrows every
swath in place and drops swaths that end up entirely empty. -/
def narrowScan (routine : List Nat → OldValueAndMatchInfo → Nat × MatchFlags)
    (mem : Nat → Nat) (isUpdate : Bool) (a : MatchesAndOldValuesArray) :
    MatchesAndOldValuesArray :=
  ⟨(a.swaths.map (narrowSwath routine mem isUpdate)).filter
      (fun s => swathMatchCount s != 0)⟩

theorem narrowCell_of_empty (routine : List Nat → OldValueAndMatchInfo → Nat × MatchFlags)
    (mem : Nat → Nat) (isUpdate : Bool) (addr : Nat)
    (c : OldValueAndMatchInfo) (hc : c.matchInfo = MatchFlags.EMPTY) :
    narrowCell routine mem isUpdate addr c = c := by
  simp [narrowCell, hc]

theorem narrowCells_count_le (routine : List Nat → OldValueAndMatchInfo → Nat × MatchFlags)
    (mem : Nat → Nat) (isUpdate : Bool) (addr : Nat)
    (cs : List OldValueAndMatchInfo) :
    ((narrowCells routine mem isUpdate addr cs).filter
        (fun c => c.matchInfo != MatchFlags.EMPTY)).length
      ≤ (cs.filter (fun c => c.matchInfo != MatchFlags.EMPTY)).length := by
  induction cs generalizing addr with
  | nil => simp [narrowCells]
  | cons c cs ih =>
    by_cases hc : c.matchInfo = MatchFlags.EMPTY
    · rw [narrowCells, narrowCell_of_empty routine mem isUpdate addr c hc]
      simp only [List.filter_cons, hc]
      norm_num
      exact ih (addr + 1)
    · rw [narrowCells]
      simp only [List.filter_cons]
      have h1 := ih (addr + 1)
      by_cases hn : (narrowCell routine mem isUpdate addr c).matchInfo
          = MatchFlags.EMPTY <;>
        simp [hc, hn] <;> omega

theorem narrowSwath_count_le (routine : List Nat → OldValueAndMatchInfo → Nat × MatchFlags)
    (mem : Nat → Nat) (isUpdate : Bool) (s : MatchesAndOldValuesSwath) :
    swathMatchCount (narrowSwath routine mem isUpdate s) ≤ swathMatchCount s :=
  narrowCells_count_le routine mem isUpdate s.firstByteInChild s.data

theorem sum_filter_swathCount_le (l : List MatchesAndOldValuesSwath)
    (p : MatchesAndOldValuesSwath → Bool) :
    ((l.filter p).map swathMatchCount).sum ≤ (l.map swathMatchCount).sum := by
  induction l with
  | nil => simp
  | cons s l ih =>
    by_cases hp : p s <;> simp [List.filter_cons, hp] <;> omega

theorem narrowScan_count_le (routine : List Nat → OldValueAndMatchInfo → Nat × MatchFlags)
    (mem : Nat → Nat) (isUpdate : Bool) (a : MatchesAndOldValuesArray) :
    countMatches (narrowScan routine mem isUpdate a) ≤ countMatches a := by
  unfold narrowScan countMatches
  calc (((a.swaths.map (narrowSwath routine mem isUpdate)).filter
            (fun s => swathMatchCount s != 0)).map swathMatchCount).sum
      ≤ ((a.swaths.map (narrowSwath routine mem isUpdate)).map
            swathMatchCount).sum := sum_filter_swathCount_le _ _
    _ ≤ (a.swaths.map swathMatchCount).sum := by
        rw [List.map_map]
        exact List.sum_le_sum (fun s _ =>
          narrowSwath_count_le routine mem isUpdate s)

/-! ## Scanner facade

Modelled from the spec (4.7): the state machine tying the engines
together per target. -/

/-- Modelled from the spec (4.7): scanner states. -/
inductive ScannerState
  | FRESH
  | HAS_MATCHES
  | FAULTED
deriving DecidableEq, Repr, Inhabited

/-- Modelled from the spec (section 7): the error variants the facade
claims touch. -/
inductive ScanError
  | NoPriorScan
  | ScannerFaulted
deriving DecidableEq, Repr, Inhabited

/-- Modelled from the spec (section 3): a Scanner owns a pid and its
matches array (the lazily opened process-memory handle and classifier are
external resources that do not enter these claims).  The C++ field is
named `matches`, which is a reserved token in Lean, hence `matchesArray`. -/
structure Scanner where
  pid : Int
  state : ScannerState
  matchesArray : MatchesAndOldValuesArray
deriving DecidableEq, Repr, Inhabited

/-- Modelled from the spec: `Scanner.new(pid)` binds a pid; the state is
`FRESH` and the matches array is created empty. -/
def Scanner.new (pid : Int) : Scanner :=
  { pid := pid, state := ScannerState.FRESH, matchesArray := ⟨[]⟩ }

/-- Modelled from the spec: `Scanner.matchCount()`. -/
def Scanner.getMatchCount (s : Scanner) : Nat :=
  countMatches s.matchesArray

/-- Modelled from the spec (4.7): a first scan installs (or replaces
wholesale) the matches array and moves to `HAS_MATCHES`; on a `FAULTED`
scanner further scans fail until reset. -/
def Scanner.performScan (s : Scanner) (routine : List Nat → Nat × MatchFlags)
    (step : Nat) (regions : List TargetRegion) :
    Scanner × Except ScanError ScanStats :=
  match s.state with
  | ScannerState.FAULTED => (s, Except.error ScanError.ScannerFaulted)
  | _ =>
    let out := runScan routine step regions
    ({ s with state := ScannerState.HAS_MATCHES, matchesArray := out.snd },
     Except.ok out.fst)

/-- Modelled from the spec (4.7): narrowing on a `FRESH` scanner fails
with `NoPriorScan` without mutating any state; narrowing on `HAS_MATCHES`
narrows the matches array in place; a `FAULTED` scanner keeps failing. -/
def Scanner.performFilteredScan (s : Scanner)
    (routine : List Nat → OldValueAndMatchInfo → Nat × MatchFlags)
    (mem : Nat → Nat) (isUpdate : Bool) :
    Scanner × Except ScanError ScanStats :=
  match s.state with
  | ScannerState.FRESH => (s, Except.error ScanError.NoPriorScan)
  | ScannerState.FAULTED => (s, Except.error ScanError.ScannerFaulted)
  | ScannerState.HAS_MATCHES =>
    let narrowed := narrowScan routine mem isUpdate s.matchesArray
    ({ s with matchesArray := narrowed },
     Except.ok { regionsVisited := s.matchesArray.swaths.length,
                 bytesScanned := countMatches s.matchesArray,
                 matchesFound := countMatches narrowed })

/-- C2: for every Scanner state holding a matches array and every
narrowing scan, the match count never increases: the count after the
narrowing scan is at most the count before it, where the count is the
number of cells whose `matchInfo` is not `EMPTY`.  The second conjunct
states the same bound directly on the narrowing driver for every matches
array. -/
theorem narrowing_never_increases_count (s : Scanner)
    (routine : List Nat → OldValueAndMatchInfo → Nat × MatchFlags)
    (mem : Nat → Nat) (isUpdate : Bool) :
    ((s.performFilteredScan routine mem isUpdate).fst).getMatchCount
        ≤ s.getMatchCount
    ∧ ∀ a : MatchesAndOldValuesArray,
        countMatches (narrowScan routine mem isUpdate a) ≤ countMatches a := by
  refine ⟨?_, fun a => narrowScan_count_le routine mem isUpdate a⟩
  unfold Scanner.performFilteredScan
  match hs : s.state with
  | ScannerState.FRESH => exact Nat.le_refl _
  | ScannerState.FAULTED => exact Nat.le_refl _
  | ScannerState.HAS_MATCHES =>
    exact narrowScan_count_le routine mem isUpdate s.matchesArray

/-- C3: on a freshly constructed Scanner, for every narrowing request, the
narrowing scan returns the `NoPriorScan` error and returns the scanner
unchanged — in particular its matches array is still the empty one it was
constructed with. -/
theorem fresh_scanner_filtered_scan_fails (pid : Int)
    (routine : List Nat → OldValueAndMatchInfo → Nat × MatchFlags)
    (mem : Nat → Nat) (isUpdate : Bool) :
    (Scanner.new pid).performFilteredScan routine mem isUpdate
        = (Scanner.new pid, Except.error ScanError.NoPriorScan)
    ∧ (Scanner.new pid).matchesArray.swaths = [] :=
  ⟨rfl, rfl⟩

/-! ## Matcher routines

Modelled from the spec (4.3).  A matcher is a pure function
`(window, windowLen, oldCell?, userValue?, flagsOut?) → matchedBytes`.
The `Mem64` window is modelled as its byte list, a nullable pointer as an
`Option`, and the flags-out parameter as an `Option MatchFlags` that is
returned updated (a C++ matcher writes through the pointer). -/

/-- Modelled from the spec (scan.types): the match-type selector. -/
inductive ScanMatchType
  | MATCH_ANY
  | MATCH_EQUAL_TO
  | MATCH_NOT_EQUAL_TO
  | MATCH_GREATER_THAN
  | MATCH_LESS_THAN
  | MATCH_RANGE
  | MATCH_UPDATE
  | MATCH_NOT_CHANGED
  | MATCH_CHANGED
  | MATCH_INCREASED
  | MATCH_DECREASED
  | MATCH_INCREASED_BY
  | MATCH_DECREASED_BY
deriving DecidableEq, Repr, Inhabited

/-- Modelled from the spec (4.3): the shared tail of every matcher: on a
hit return the matched width and, when `flagsOut` is non-null, set the
given bits in it; on a miss return 0 and leave `flagsOut` untouched. -/
def emitMatch (hit : Bool) (width : Nat) (bits : MatchFlags)
    (flagsOut : Option MatchFlags) : Nat × Option MatchFlags :=
  if hit then (width, flagsOut.map (fun f => f ||| bits)) else (0, flagsOut)

/-- Modelled from the spec (4.3, numeric matcher table): the predicate on
the decoded value `v`, the stored old value and the user value (paired
with its optional range high bound).  A comparison whose operand is
missing does not match. -/
def numericMatchCond (mt : ScanMatchType) (v : Int) (old : Option Int)
    (user : Option (Int × Int)) : Bool :=
  match mt, old, user with
  | ScanMatchType.MATCH_ANY, _, _ => true
  | ScanMatchType.MATCH_EQUAL_TO, _, some u => v == u.fst
  | ScanMatchType.MATCH_NOT_EQUAL_TO, _, some u => v != u.fst
  | ScanMatchType.MATCH_GREATER_THAN, _, some u => decide (u.fst < v)
  | ScanMatchType.MATCH_LESS_THAN, _, some u => decide (v < u.fst)
  | ScanMatchType.MATCH_RANGE, _, some u =>
      let lo := if u.fst ≤ u.snd then u.fst else u.snd
      let hi := if u.fst ≤ u.snd then u.snd else u.fst
      decide (lo ≤ v) && decide (v ≤ hi)
  | ScanMatchType.MATCH_UPDATE, _, _ => true
  | ScanMatchType.MATCH_NOT_CHANGED, some o, _ => v == o
  | ScanMatchType.MATCH_CHANGED, some o, _ => v != o
  | ScanMatchType.MATCH_INCREASED, some o, _ => decide (o < v)
  | ScanMatchType.MATCH_DECREASED, some o, _ => decide (v < o)
  | ScanMatchType.MATCH_INCREASED_BY, some o, some u => v - o == u.fst
  | ScanMatchType.MATCH_DECREASED_BY, some o, some u => o - v == u.fst
  | _, _, _ => false

/-- Modelled from the spec (4.3): `numericMatchCore` for a numeric type of
`width` bytes applies the match-type predicate to the decoded value and on
a hit reports `width` matched bytes, setting the type's width bit in the
flags-out parameter when that is non-null. -/
def numericMatchCore (width : Nat) (mt : ScanMatchType) (v : Int)
    (old : Option Int) (user : Option (Int × Int))
    (saveFlags : Option MatchFlags) : Nat × Option MatchFlags :=
  emitMatch (numericMatchCond mt v old user) width (widthFlag width) saveFlags

/-- Modelled from the spec (4.3 byte-array matcher): compare up to
`|pattern|` bytes starting at the window; an empty pattern or a pattern
longer than `windowLen` matches nothing; on a positive match report
`|pattern|` bytes and set `BYTE_ARRAY`. -/
def compareBytes (window : List Nat) (windowLen : Nat) (pattern : List Nat)
    (saveFlags : Option MatchFlags) : Nat × Option MatchFlags :=
  emitMatch
    (pattern.length != 0 && decide (pattern.length ≤ windowLen)
      && (List.range pattern.length).all
          (fun i => window.getD i 0 == pattern.getD i 0))
    pattern.length MatchFlags.BYTE_ARRAY saveFlags

/-- Modelled from the spec (4.3 byte-array matcher, masked form): the
comparison is `(byte &&& mask[i]) == (pattern[i] &&& mask[i])`; a mask
whose size differs from the pattern size matches nothing. -/
def compareBytesMasked (window : List Nat) (windowLen : Nat)
    (pattern mask : List Nat) (saveFlags : Option MatchFlags) :
    Nat × Option MatchFlags :=
  emitMatch
    (pattern.length != 0 && decide (pattern.length ≤ windowLen)
      && mask.length == pattern.length
      && (List.range pattern.length).all
          (fun i => window.getD i 0 &&& mask.getD i 0
              == pattern.getD i 0 &&& mask.getD i 0))
    pattern.length MatchFlags.BYTE_ARRAY saveFlags

/-- Little-endian decode of the first `w` window bytes as an unsigned
value, byte-swapped first when the scan is reverse-endian. -/
def decodeAt (reverseEndian : Bool) (window : List Nat) (w : Nat) : Int :=
  Int.ofNat (fromLEBytes
    (if reverseEndian then (window.take w).reverse else window.take w))

/-- Modelled from the spec (4.3 aggregated matchers): the integer widths
whose matcher hits the window at the given match type. -/
def anyIntegerMatchedWidths (mt : ScanMatchType) (reverseEndian : Bool)
    (window : List Nat) (windowLen : Nat) (old : Option (List Nat))
    (user : Option (Int × Int)) : List Nat :=
  [1, 2, 4, 8].filter (fun w =>
    decide (w ≤ windowLen)
      && numericMatchCond mt (decodeAt reverseEndian window w)
          (old.map (fun ob => decodeAt reverseEndian ob w)) user)

/-- Union of the flags of the matched widths. -/
def widthFlagsUnion (flagOf : Nat → MatchFlags) (ws : List Nat) : MatchFlags :=
  ws.foldl (fun acc w => acc ||| flagOf w) MatchFlags.EMPTY

/-- Modelled from the spec (4.3): `ANY_INTEGER` runs all integer width
matchers against the same window; every width that matches sets its bit in
the flags-out parameter; the returned width is the widest that matched. -/
def anyIntegerRoutine (mt : ScanMatchType) (reverseEndian : Bool)
    (window : List Nat) (windowLen : Nat) (old : Option (List Nat))
    (user : Option (Int × Int)) (saveFlags : Option MatchFlags) :
    Nat × Option MatchFlags :=
  let ws := anyIntegerMatchedWidths mt reverseEndian window windowLen old user
  emitMatch (ws != []) (ws.foldl max 0) (widthFlagsUnion widthFlag ws) saveFlags

/-- Modelled from the spec (4.3): the float widths whose matcher hits the
window.  Floating-point decoding and tolerance comparison are not
shallow-embeddable; the per-width float predicate is abstracted as the
function parameter `fcond`, and the claims proved below hold for every
such predicate. -/
def anyFloatMatchedWidths (fcond : Nat → List Nat → Bool) (window : List Nat)
    (windowLen : Nat) : List Nat :=
  [4, 8].filter (fun w => decide (w ≤ windowLen) && fcond w window)

/-- Modelled from the spec (4.3): `ANY_FLOAT` runs the f32 and f64
matchers against the same window. -/
def anyFloatRoutine (fcond : Nat → List Nat → Bool) (window : List Nat)
    (windowLen : Nat) (saveFlags : Option MatchFlags) :
    Nat × Option MatchFlags :=
  let ws := anyFloatMatchedWidths fcond window windowLen
  emitMatch (ws != []) (ws.foldl max 0) (widthFlagsUnion floatFlag ws) saveFlags

/-- Modelled from the spec (4.3): `ANY_NUMBER` aggregates the integer and
float matchers; the bitset preserves all hits and the returned width is
the widest that matched. -/
def anyNumberRoutine (mt : ScanMatchType) (reverseEndian : Bool)
    (fcond : Nat → List Nat → Bool) (window : List Nat) (windowLen : Nat)
    (old : Option (List Nat)) (user : Option (Int × Int))
    (saveFlags : Option MatchFlags) : Nat × Option MatchFlags :=
  let iws := anyIntegerMatchedWidths mt reverseEndian window windowLen old user
  let fws := anyFloatMatchedWidths fcond window windowLen
  emitMatch (iws != [] || fws != [])
    (max (iws.foldl max 0) (fws.foldl max 0))
    (widthFlagsUnion widthFlag iws ||| widthFlagsUnion floatFlag fws)
    saveFlags

/-- Modelled from the spec (4.3 string matchers) and the unit tests: the
hit flag, reported width and flag bits of the string routine per match
type.  `MATCH_ANY` reports the window length (setting `B8`, as the unit
tests pin down); `MATCH_EQUAL_TO` reports `|pattern|` when the first
`|pattern|` window bytes equal the pattern (setting `STRING`); other match
types do not apply to strings. -/
def stringRoutineCase (mt : ScanMatchType) (window : List Nat)
    (windowLen : Nat) (user : Option (List Nat)) : Bool × Nat × MatchFlags :=
  match mt, user with
  | ScanMatchType.MATCH_ANY, _ => (windowLen != 0, windowLen, MatchFlags.B8)
  | ScanMatchType.MATCH_EQUAL_TO, some pattern =>
      (pattern.length != 0 && decide (pattern.length ≤ windowLen)
        && window.take pattern.length == pattern,
       pattern.length, MatchFlags.STRING)
  | _, _ => (false, 0, MatchFlags.STRING)

/-- Modelled from the spec (4.3): the string matcher routine. -/
def stringRoutine (mt : ScanMatchType) (window : List Nat) (windowLen : Nat)
    (user : Option (List Nat)) (saveFlags : Option MatchFlags) :
    Nat × Option MatchFlags :=
  emitMatch (stringRoutineCase mt window windowLen user).fst
    (stringRoutineCase mt window windowLen user).snd.fst
    (stringRoutineCase mt window windowLen user).snd.snd saveFlags

/-- Modelled from the spec (4.3): the offset and length of the first
in-window regex match, or no match.  The compiled-regex search is
abstracted as the function parameter `search`; the claims hold for every
search function. -/
def regexHit (search : List Nat → Option (Nat × Nat)) (window : List Nat)
    (windowLen : Nat) : Bool × Nat :=
  match search (window.take windowLen) with
  | some r => (r.snd != 0, r.snd)
  | none => (false, 0)

/-- Modelled from the spec (4.3): `MATCH_REGEX` reports the length of the
first in-window match, or 0, setting `STRING` on a hit. -/
def regexRoutine (search : List Nat → Option (Nat × Nat)) (window : List Nat)
    (windowLen : Nat) (saveFlags : Option MatchFlags) :
    Nat × Option MatchFlags :=
  emitMatch (regexHit search window windowLen).fst
    (regexHit search window windowLen).snd MatchFlags.STRING saveFlags

theorem emitMatch_null_safe (hit : Bool) (width : Nat) (bits : MatchFlags)
    (f : MatchFlags) :
    (emitMatch hit width bits none).fst
        = (emitMatch hit width bits (some f)).fst
    ∧ (emitMatch hit width bits none).snd = none
    ∧ ((emitMatch hit width bits (some f)).fst ≠ 0 →
        (emitMatch hit width bits (some f)).snd = some (f ||| bits)) := by
  cases hit <;> simp [emitMatch]

theorem numericMatchCond_range (v low high : Int) (old : Option Int) :
    numericMatchCond ScanMatchType.MATCH_RANGE v old (some (low, high))
      = (decide (min low high ≤ v) && decide (v ≤ max low high)) := by
  simp only [numericMatchCond, min_def, max_def]

/-- C5: for every numeric width and every decoded value `v`, the
`MATCH_RANGE` matcher reports a match of `width` bytes exactly when
`min low high ≤ v ≤ max low high`; in particular reversed bounds are
canonicalized by swapping, so exchanging the two bounds yields the
identical result. -/
theorem match_range_canonicalizes (width : Nat) (v low high : Int)
    (old : Option Int) (saveFlags : Option MatchFlags) (hw : 0 < width) :
    ((numericMatchCore width ScanMatchType.MATCH_RANGE v old
          (some (low, high)) saveFlags).fst = width
        ↔ (min low high ≤ v ∧ v ≤ max low high))
    ∧ numericMatchCore width ScanMatchType.MATCH_RANGE v old
          (some (low, high)) saveFlags
        = numericMatchCore width ScanMatchType.MATCH_RANGE v old
          (some (high, low)) saveFlags := by
  constructor
  · unfold numericMatchCore emitMatch
    rw [numericMatchCond_range]
    by_cases h1 : min low high ≤ v <;> by_cases h2 : v ≤ max low high <;>
      simp [h1, h2] <;> omega
  · unfold numericMatchCore
    rw [numericMatchCond_range, numericMatchCond_range, min_comm, max_comm]

/-- Witness for C5: an int32-width range scan with the reversed bounds
low = 200, high = 100 and the in-range value 150 (the
RangeInt32ReversedBounds test vector). -/
theorem match_range_canonicalizes_witness :
    ((numericMatchCore 4 ScanMatchType.MATCH_RANGE 150 none
          (some (200, 100)) (some MatchFlags.EMPTY)).fst = 4
        ↔ (min (200 : Int) 100 ≤ 150 ∧ (150 : Int) ≤ max 200 100))
    ∧ numericMatchCore 4 ScanMatchType.MATCH_RANGE 150 none
          (some (200, 100)) (some MatchFlags.EMPTY)
        = numericMatchCore 4 ScanMatchType.MATCH_RANGE 150 none
          (some (100, 200)) (some MatchFlags.EMPTY) :=
  match_range_canonicalizes 4 150 200 100 none (some MatchFlags.EMPTY)
    (by decide)

/-- C4: the masked byte-array matcher returns `|pattern|` bytes with
`BYTE_ARRAY` set in the flags exactly when every pattern index agrees with
the window under the mask, and it returns 0 whenever the pattern is empty,
the pattern is longer than `windowLen`, or the mask size differs from the
pattern size. -/
theorem compareBytesMasked_spec (window : List Nat) (windowLen : Nat)
    (pattern mask : List Nat) (f : MatchFlags) :
    (pattern = [] ∨ windowLen < pattern.length
        ∨ mask.length ≠ pattern.length →
      (compareBytesMasked window windowLen pattern mask (some f)).fst = 0)
    ∧ (pattern ≠ [] → pattern.length ≤ windowLen
        → mask.length = pattern.length →
      (compareBytesMasked window windowLen pattern mask (some f)
          = (pattern.length, some (f ||| MatchFlags.BYTE_ARRAY))
        ↔ ∀ i < pattern.length,
            window.getD i 0 &&& mask.getD i 0
              = pattern.getD i 0 &&& mask.getD i 0)) := by
  constructor
  · intro h
    rcases h with h | h | h
    · simp [compareBytesMasked, emitMatch, h]
    · simp [compareBytesMasked, emitMatch, Nat.not_le.mpr h]
    · simp [compareBytesMasked, emitMatch, h]
  · intro h1 h2 h3
    have hlen0 : pattern.length ≠ 0 := by
      simpa [List.length_eq_zero] using h1
    by_cases hc : ∀ i < pattern.length,
        window.getD i 0 &&& mask.getD i 0
          = pattern.getD i 0 &&& mask.getD i 0
    · have hall : ((List.range pattern.length).all
          (fun i => window.getD i 0 &&& mask.getD i 0
              == pattern.getD i 0 &&& mask.getD i 0)) = true := by
        rw [List.all_eq_true]
        intro i hi
        exact beq_iff_eq.mpr (hc i (List.mem_range.mp hi))
      constructor
      · intro _
        exact hc
      · intro _
        simp only [compareBytesMasked, emitMatch, hall, Bool.and_true]
        simp [hlen0, h2, h3]
    · have hall : ((List.range pattern.length).all
          (fun i => window.getD i 0 &&& mask.getD i 0
              == pattern.getD i 0 &&& mask.getD i 0)) = false := by
        rw [List.all_eq_false]
        push_neg at hc
        obtain ⟨i, hi, hne⟩ := hc
        exact ⟨i, List.mem_range.mpr hi, by simpa using hne⟩
      have hres : compareBytesMasked window windowLen pattern mask (some f)
          = (0, some f) := by
        simp only [compareBytesMasked, emitMatch, hall, Bool.and_false]
        simp
      rw [hres]
      constructor
      · intro he
        exact absurd (congrArg Prod.fst he).symm hlen0
      · intro hforall
        exact absurd hforall hc

/-- Witness for C4: the masked byte-array test vector — window AA B5,
pattern AA BB, mask FF F0 (the low nibble of the second byte is ignored)
matches with length 2 and sets `BYTE_ARRAY`. -/
theorem compareBytesMasked_spec_witness :
    compareBytesMasked [0xAA, 0xB5] 2 [0xAA, 0xBB] [0xFF, 0xF0]
        (some MatchFlags.EMPTY)
      = (2, some (MatchFlags.EMPTY ||| MatchFlags.BYTE_ARRAY)) :=
  ((compareBytesMasked_spec [0xAA, 0xB5] 2 [0xAA, 0xBB] [0xFF, 0xF0]
      MatchFlags.EMPTY).2 (by decide) (by decide) (by decide)).mpr (by decide)

/-- C6: for every matcher routine — numeric, aggregated any-integer,
any-float and any-number, byte-array (plain and masked), string and regex
— calling the routine with a null `flagsOut` (modelled as `none`) is safe
and returns the same `matchedBytes` as calling it with a non-null
`flagsOut`; a null `flagsOut` is never written (the output stays `none`),
and only through a non-null `flagsOut` does a positive match set the
corresponding width/shape bits. -/
theorem routines_null_flags_safe (width : Nat) (mt : ScanMatchType) (v : Int)
    (old : Option Int) (user : Option (Int × Int)) (f : MatchFlags)
    (reverseEndian : Bool) (window : List Nat) (windowLen : Nat)
    (oldBytes : Option (List Nat)) (fcond : Nat → List Nat → Bool)
    (pattern mask : List Nat) (strUser : Option (List Nat))
    (search : List Nat → Option (Nat × Nat)) :
    ((numericMatchCore width mt v old user none).fst
        = (numericMatchCore width mt v old user (some f)).fst
      ∧ (numericMatchCore width mt v old user none).snd = none
      ∧ ((numericMatchCore width mt v old user (some f)).fst ≠ 0 →
          (numericMatchCore width mt v old user (some f)).snd
            = some (f ||| widthFlag width)))
    ∧ ((anyIntegerRoutine mt reverseEndian window windowLen oldBytes user
          none).fst
        = (anyIntegerRoutine mt reverseEndian window windowLen oldBytes user
            (some f)).fst
      ∧ (anyIntegerRoutine mt reverseEndian window windowLen oldBytes user
          none).snd = none
      ∧ ((anyIntegerRoutine mt reverseEndian window windowLen oldBytes user
            (some f)).fst ≠ 0 →
          (anyIntegerRoutine mt reverseEndian window windowLen oldBytes user
            (some f)).snd
            = some (f ||| widthFlagsUnion widthFlag
                (anyIntegerMatchedWidths mt reverseEndian window windowLen
                  oldBytes user))))
    ∧ ((anyFloatRoutine fcond window windowLen none).fst
        = (anyFloatRoutine fcond window windowLen (some f)).fst
      ∧ (anyFloatRoutine fcond window windowLen none).snd = none
      ∧ ((anyFloatRoutine fcond window windowLen (some f)).fst ≠ 0 →
          (anyFloatRoutine fcond window windowLen (some f)).snd
            = some (f ||| widthFlagsUnion floatFlag
                (anyFloatMatchedWidths fcond window windowLen))))
    ∧ ((anyNumberRoutine mt reverseEndian fcond window windowLen oldBytes
          user none).fst
        = (anyNumberRoutine mt reverseEndian fcond window windowLen oldBytes
            user (some f)).fst
      ∧ (anyNumberRoutine mt reverseEndian fcond window windowLen oldBytes
          user none).snd = none
      ∧ ((anyNumberRoutine mt reverseEndian fcond window windowLen oldBytes
            user (some f)).fst ≠ 0 →
          (anyNumberRoutine mt reverseEndian fcond window windowLen oldBytes
            user (some f)).snd
            = some (f ||| (widthFlagsUnion widthFlag
                  (anyIntegerMatchedWidths mt reverseEndian window windowLen
                    oldBytes user)
                ||| widthFlagsUnion floatFlag
                  (anyFloatMatchedWidths fcond window windowLen)))))
    ∧ ((compareBytes window windowLen pattern none).fst
        = (compareBytes window windowLen pattern (some f)).fst
      ∧ (compareBytes window windowLen pattern none).snd = none
      ∧ ((compareBytes window windowLen pattern (some f)).fst ≠ 0 →
          (compareBytes window windowLen pattern (some f)).snd
            = some (f ||| MatchFlags.BYTE_ARRAY)))
    ∧ ((compareBytesMasked window windowLen pattern mask none).fst
        = (compareBytesMasked window windowLen pattern mask (some f)).fst
      ∧ (compareBytesMasked window windowLen pattern mask none).snd = none
      ∧ ((compareBytesMasked window windowLen pattern mask (some f)).fst
              ≠ 0 →
          (compareBytesMasked window windowLen pattern mask (some f)).snd
            = some (f ||| MatchFlags.BYTE_ARRAY)))
    ∧ ((stringRoutine mt window windowLen strUser none).fst
        = (stringRoutine mt window windowLen strUser (some f)).fst
      ∧ (stringRoutine mt window windowLen strUser none).snd = none
      ∧ ((stringRoutine mt window windowLen strUser (some f)).fst ≠ 0 →
          (stringRoutine mt window windowLen strUser (some f)).snd
            = some (f |||
                (stringRoutineCase mt window windowLen strUser).snd.snd)))
    ∧ ((regexRoutine search window windowLen none).fst
        = (regexRoutine search window windowLen (some f)).fst
      ∧ (regexRoutine search window windowLen none).snd = none
      ∧ ((regexRoutine search window windowLen (some f)).fst ≠ 0 →
          (regexRoutine search window windowLen (some f)).snd
            = some (f ||| MatchFlags.STRING))) := by
  refine ⟨?_, ?_, ?_, ?_, ?_, ?_, ?_, ?_⟩ <;>
    exact emitMatch_null_safe _ _ _ f

/-- Witness for C6 at a concrete input: the int32 equality matcher hit at
value 42 returns the same matched width with null and non-null flags-out,
writes nothing through a null flags-out, and sets `B32` through the
non-null one. -/
theorem routines_null_flags_safe_witness :
    (numericMatchCore 4 ScanMatchType.MATCH_EQUAL_TO 42 none (some (42, 0))
        none).fst
      = (numericMatchCore 4 ScanMatchType.MATCH_EQUAL_TO 42 none
          (some (42, 0)) (some MatchFlags.EMPTY)).fst
    ∧ (numericMatchCore 4 ScanMatchType.MATCH_EQUAL_TO 42 none (some (42, 0))
        none).snd = none
    ∧ (numericMatchCore 4 ScanMatchType.MATCH_EQUAL_TO 42 none (some (42, 0))
        (some MatchFlags.EMPTY)).snd
      = some (MatchFlags.EMPTY ||| MatchFlags.B32) :=
  have h := (routines_null_flags_safe 4 ScanMatchType.MATCH_EQUAL_TO 42 none
    (some (42, 0)) MatchFlags.EMPTY false [] 0 none (fun _ _ => false) [] []
    none (fun _ => none)).1
  ⟨h.1, h.2.1, h.2.2 (by decide)⟩

/-! ## Region types and the match collector

Modelled from the spec (section 3 Region, 4.8 Match collector). -/

/-- Modelled from the spec: the semantic region categories derived by the
classifier. -/
inductive RegionType
  | EXE
  | CODE
  | HEAP
  | STACK
  | BSS
  | MAPPED_FILE
  | MISC_RW
  | MISC_RO
  | UNKNOWN
deriving DecidableEq, Repr, Inhabited

/-- Modelled from the spec (4.8 and section 6): region-filter modes. -/
inductive RegionFilterMode
  | DISABLED
  | SCAN_TIME
  | EXPORT_TIME
deriving DecidableEq, Repr, Inhabited

/-- Modelled from the spec (4.8): collection options.  The allowed set of
the region filter is a predicate on region types; `dataType` and
`reverseEndian` only affect how the collected value bytes are formatted,
which these claims do not touch. -/
structure MatchCollectionOptions where
  limit : Nat
  mode : RegionFilterMode
  allowed : RegionType → Bool

/-- Modelled from the spec (4.8): one collected entry; `value` holds the
cell's stored byte. -/
structure MatchEntry where
  index : Nat
  address : Nat
  value : Nat
deriving DecidableEq, Repr, Inhabited

/-- Modelled from the spec (4.8): a cell is considered when it survives
(`matchInfo ≠ EMPTY`) and, under `EXPORT_TIME` filtering only, its
classified region category is allowed.  The classifier is modelled as a
function from addresses to region categories. -/
def cellConsidered (classify : Nat → RegionType)
    (opts : MatchCollectionOptions) (addr : Nat)
    (c : OldValueAndMatchInfo) : Bool :=
  (c.matchInfo != MatchFlags.EMPTY)
    && (opts.mode != RegionFilterMode.EXPORT_TIME
        || opts.allowed (classify addr))

/-- The left-to-right enumeration of one swath's cells with their target
addresses. -/
def swathAddressedCells (s : MatchesAndOldValuesSwath) :
    List (Nat × OldValueAndMatchInfo) :=
  s.data.enum.map (fun p => (s.firstByteInChild + p.fst, p.snd))

/-- The left-to-right enumeration of all cells across all swaths. -/
def allAddressedCells (a : MatchesAndOldValuesArray) :
    List (Nat × OldValueAndMatchInfo) :=
  (a.swaths.map swathAddressedCells).flatten

/-- Spec-level description (4.8): the considered cells in enumeration
order — the surviving cells, after export-time filtering. -/
def consideredCells (classify : Nat → RegionType)
    (opts : MatchCollectionOptions) (a : MatchesAndOldValuesArray) :
    List (Nat × OldValueAndMatchInfo) :=
  (allAddressedCells a).filter
    (fun p => cellConsidered classify opts p.fst p.snd)

/-- Modelled from the spec (4.8): the collector walk.  It visits all cells
in order keeping a running count of considered cells; each considered cell
is emitted as an entry (carrying the running count as its `index`) while
fewer than `limit` entries have been emitted; the final count is returned
as the total of matches considered. -/
def collectGo (classify : Nat → RegionType) (opts : MatchCollectionOptions) :
    List (Nat × OldValueAndMatchInfo) → Nat → List MatchEntry × Nat
  | [], idx => ([], idx)
  | pc :: rest, idx =>
    if cellConsidered classify opts pc.fst pc.snd then
      let out := collectGo classify opts rest (idx + 1)
      (if idx < opts.limit then
          { index := idx, address := pc.fst, value := pc.snd.oldByte }
            :: out.fst
        else out.fst,
       out.snd)
    else collectGo classify opts rest idx

/-- Modelled from the spec (4.8): `collect` produces the bounded entry
list plus the total count of matches considered (not of matches
returned). -/
def collect (classify : Nat → RegionType) (opts : MatchCollectionOptions)
    (a : MatchesAndOldValuesArray) : List MatchEntry × Nat :=
  collectGo classify opts (allAddressedCells a) 0

theorem collectGo_cons_pos (classify : Nat → RegionType)
    (opts : MatchCollectionOptions) (pc : Nat × OldValueAndMatchInfo)
    (rest : List (Nat × OldValueAndMatchInfo)) (idx : Nat)
    (hc : cellConsidered classify opts pc.fst pc.snd = true) :
    collectGo classify opts (pc :: rest) idx
      = (if idx < opts.limit then
            { index := idx, address := pc.fst, value := pc.snd.oldByte }
              :: (collectGo classify opts rest (idx + 1)).fst
          else (collectGo classify opts rest (idx + 1)).fst,
         (collectGo classify opts rest (idx + 1)).snd) := by
  simp [collectGo, hc]

theorem collectGo_cons_neg (classify : Nat → RegionType)
    (opts : MatchCollectionOptions) (pc : Nat × OldValueAndMatchInfo)
    (rest : List (Nat × OldValueAndMatchInfo)) (idx : Nat)
    (hc : ¬ cellConsidered classify opts pc.fst pc.snd = true) :
    collectGo classify opts (pc :: rest) idx
      = collectGo classify opts rest idx := by
  simp [collectGo, hc]

theorem collectGo_spec (classify : Nat → RegionType)
    (opts : MatchCollectionOptions) (l : List (Nat × OldValueAndMatchInfo))
    (idx : Nat) :
    (collectGo classify opts l idx).snd
        = idx + (l.filter
            (fun p => cellConsidered classify opts p.fst p.snd)).length
    ∧ (collectGo classify opts l idx).fst.map MatchEntry.index
        = List.range' idx
            (min (l.filter
                (fun p => cellConsidered classify opts p.fst p.snd)).length
              (opts.limit - idx))
    ∧ (collectGo classify opts l idx).fst.map MatchEntry.address
        = ((l.filter (fun p => cellConsidered classify opts p.fst p.snd)).map
            Prod.fst).take (opts.limit - idx) := by
  induction l generalizing idx with
  | nil => simp [collectGo]
  | cons pc rest ih =>
    obtain ⟨ih1, ih2, ih3⟩ := ih (idx + 1)
    by_cases hc : cellConsidered classify opts pc.fst pc.snd = true
    · have hfil : (pc :: rest).filter
            (fun q => cellConsidered classify opts q.fst q.snd)
          = pc :: rest.filter
              (fun q => cellConsidered classify opts q.fst q.snd) := by
        simp [List.filter_cons, hc]
      rw [collectGo_cons_pos classify opts pc rest idx hc, hfil]
      refine ⟨?_, ?_, ?_⟩
      · simp only [List.length_cons, ih1]
        omega
      · by_cases hi : idx < opts.limit
        · have hmin : min ((rest.filter
                (fun p => cellConsidered classify opts p.fst p.snd)).length
                + 1) (opts.limit - idx)
              = (min ((rest.filter
                  (fun p => cellConsidered classify opts p.fst p.snd)).length)
                 (opts.limit - (idx + 1))) + 1 := by
            omega
          simp only [if_pos hi, List.map_cons, List.length_cons, ih2, hmin]
          simp [List.range']
        · have hz : opts.limit - idx = 0 := by omega
          have hz1 : opts.limit - (idx + 1) = 0 := by omega
          simp only [if_neg hi, List.length_cons, ih2, hz, hz1]
          simp
      · by_cases hi : idx < opts.limit
        · have hone : opts.limit - idx = (opts.limit - (idx + 1)) + 1 := by
            omega
          simp only [if_pos hi, List.map_cons, ih3, hone,
            List.take_succ_cons]
        · have hz : opts.limit - idx = 0 := by omega
          have hz1 : opts.limit - (idx + 1) = 0 := by omega
          simp only [if_neg hi, ih3, hz, hz1]
          simp
    · have hfil : (pc :: rest).filter
            (fun q => cellConsidered classify opts q.fst q.snd)
          = rest.filter
              (fun q => cellConsidered classify opts q.fst q.snd) := by
        simp [List.filter_cons, hc]
      rw [collectGo_cons_neg classify opts pc rest idx hc, hfil]
      exact ih idx

/-- C7: for every matches array, classifier and collection options, the
collector returns entries whose `index` field is the global position of
the cell in the left-to-right enumeration of surviving (non-`EMPTY`)
cells across all swaths — with cells whose classified region category is
not allowed skipped before both counting and indexing when the filter mode
is `EXPORT_TIME` — entries whose addresses follow that same enumeration,
and a total equal to the number of matches considered rather than the
number of entries returned. -/
theorem collect_spec (classify : Nat → RegionType)
    (opts : MatchCollectionOptions) (a : MatchesAndOldValuesArray) :
    (collect classify opts a).snd = (consideredCells classify opts a).length
    ∧ (collect classify opts a).fst.map MatchEntry.index
        = List.range
            (min (consideredCells classify opts a).length opts.limit)
    ∧ (collect classify opts a).fst.map MatchEntry.address
        = ((consideredCells classify opts a).map Prod.fst).take opts.limit := by
  obtain ⟨h1, h2, h3⟩ := collectGo_spec classify opts (allAddressedCells a) 0
  refine ⟨?_, ?_, ?_⟩
  · simpa [consideredCells] using h1
  · rw [List.range_eq_range']
    simpa [consideredCells] using h2
  · simpa [consideredCells] using h3

/-! ## Maps parser: load addresses

Modelled from the spec (section 3 Region and 4.1): each parsed region
carries the interval, the backing filename or pseudo-name, and a
`loadAddr` equal to the lowest `start` of all regions sharing the same
filename, computed by a second pass after parsing.  The protection bits,
file offset, device, inode and derived type of a region do not enter the
load-address pass and are omitted from this record; `end` is a reserved
word in Lean, so the exclusive upper bound is called `stop`. -/

/-- Modelled from the spec: a parsed region record. -/
structure Region where
  start : Nat
  stop : Nat
  filename : String
  loadAddr : Nat
deriving DecidableEq, Repr, Inhabited

/-- Modelled from the spec (4.1): the minimum `start` over all regions of
the snapshot sharing the given filename (0 when no region has it, a case
the parser never produces for names it looks up). -/
def minStartFor (rs : List Region) (name : String) : Nat :=
  match (rs.filter (fun s => s.filename == name)).map Region.start with
  | [] => 0
  | x :: xs => xs.foldl min x

/-- Modelled from the spec (4.1): the second parser pass, assigning each
region the minimum `start` of its filename group as `loadAddr`. -/
def computeLoadAddresses (rs : List Region) : List Region :=
  rs.map (fun r => { r with loadAddr := minStartFor rs r.filename })

theorem foldl_min_le_mem (x : Nat) (xs : List Nat) :
    ∀ y ∈ x :: xs, xs.foldl min x ≤ y := by
  induction xs generalizing x with
  | nil =>
    intro y hy
    rcases List.mem_cons.mp hy with h | h
    · rw [h]
      exact Nat.le_refl x
    · cases h
  | cons a l ih =>
    intro y hy
    have hfold : (a :: l).foldl min x = l.foldl min (min x a) := rfl
    have hhead : l.foldl min (min x a) ≤ min x a :=
      ih (min x a) (min x a) (List.mem_cons_self _ _)
    rcases List.mem_cons.mp hy with h | h
    · rw [h, hfold]
      exact Nat.le_trans hhead (Nat.min_le_left _ _)
    · rcases List.mem_cons.mp h with h1 | h1
      · rw [h1, hfold]
        exact Nat.le_trans hhead (Nat.min_le_right _ _)
      · rw [hfold]
        exact ih (min x a) y (List.mem_cons_of_mem _ h1)

theorem foldl_min_mem (x : Nat) (xs : List Nat) :
    xs.foldl min x ∈ x :: xs := by
  induction xs generalizing x with
  | nil => exact List.mem_cons_self x []
  | cons a l ih =>
    have hfold : (a :: l).foldl min x = l.foldl min (min x a) := rfl
    rw [hfold]
    rcases List.mem_cons.mp (ih (min x a)) with h1 | h1
    · rw [h1]
      by_cases hxa : x ≤ a
      · rw [min_eq_left hxa]
        exact List.mem_cons_self _ _
      · rw [min_eq_right (Nat.le_of_not_le hxa)]
        exact List.mem_cons_of_mem _ (List.mem_cons_self _ _)
    · exact List.mem_cons_of_mem _ (List.mem_cons_of_mem _ h1)

theorem minStartFor_spec (rs : List Region) (name : String)
    (r0 : Region) (h0 : r0 ∈ rs) (hname : r0.filename = name) :
    (∃ s ∈ rs, s.filename = name ∧ s.start = minStartFor rs name)
    ∧ (∀ s ∈ rs, s.filename = name → minStartFor rs name ≤ s.start) := by
  have h0f : r0 ∈ rs.filter (fun s => s.filename == name) :=
    List.mem_filter.mpr ⟨h0, by simp [hname]⟩
  have h0s : r0.start ∈ (rs.filter (fun s => s.filename == name)).map
      Region.start := List.mem_map_of_mem Region.start h0f
  obtain ⟨x, xs, hxs⟩ : ∃ x xs,
      (rs.filter (fun s => s.filename == name)).map Region.start
        = x :: xs := by
    match hm : (rs.filter (fun s => s.filename == name)).map Region.start with
    | [] => rw [hm] at h0s; cases h0s
    | x :: xs => exact ⟨x, xs, hm⟩
  have hval : minStartFor rs name = xs.foldl min x := by
    unfold minStartFor
    rw [hxs]
  constructor
  · have hmem : xs.foldl min x ∈ x :: xs := foldl_min_mem x xs
    rw [← hxs] at hmem
    obtain ⟨s, hsf, hss⟩ := List.mem_map.mp hmem
    obtain ⟨hsrs, hsn⟩ := List.mem_filter.mp hsf
    exact ⟨s, hsrs, by simpa using hsn, by rw [hval, hss]⟩
  · intro s hs hsname
    have hsf : s ∈ rs.filter (fun t => t.filename == name) :=
      List.mem_filter.mpr ⟨hs, by simp [hsname]⟩
    have hss : s.start ∈ x :: xs := by
      rw [← hxs]
      exact List.mem_map_of_mem Region.start hsf
    rw [hval]
    exact foldl_min_le_mem x xs s.start hss

/-- C8: every region produced by the parser's load-address pass carries a
`loadAddr` equal to the minimum `start` over all regions sharing its
filename (the load address is the `start` of one such region and a lower
bound for all of them); consequently all regions of one file carry the
same `loadAddr`, and a region whose filename is unique in the snapshot
(all regions with its filename share its `start`) has `loadAddr` equal to
its own `start`. -/
theorem computeLoadAddresses_spec (rs : List Region) :
    (∀ r ∈ computeLoadAddresses rs,
      (∃ s ∈ rs, s.filename = r.filename ∧ s.start = r.loadAddr)
      ∧ (∀ s ∈ rs, s.filename = r.filename → r.loadAddr ≤ s.start))
    ∧ (∀ r1 ∈ computeLoadAddresses rs, ∀ r2 ∈ computeLoadAddresses rs,
        r1.filename = r2.filename → r1.loadAddr = r2.loadAddr)
    ∧ (∀ r ∈ computeLoadAddresses rs,
        (∀ s ∈ rs, s.filename = r.filename → s.start = r.start) →
        r.loadAddr = r.start) := by
  have hchar : ∀ r ∈ computeLoadAddresses rs, ∃ r0 ∈ rs,
      r.filename = r0.filename ∧ r.start = r0.start
      ∧ r.loadAddr = minStartFor rs r0.filename := by
    intro r hr
    obtain ⟨r0, hr0, hreq⟩ := List.mem_map.mp hr
    exact ⟨r0, hr0, by rw [← hreq], by rw [← hreq], by rw [← hreq]⟩
  have hmain : ∀ r ∈ computeLoadAddresses rs,
      (∃ s ∈ rs, s.filename = r.filename ∧ s.start = r.loadAddr)
      ∧ (∀ s ∈ rs, s.filename = r.filename → r.loadAddr ≤ s.start) := by
    intro r hr
    obtain ⟨r0, hr0, hfn, hst, hla⟩ := hchar r hr
    obtain ⟨hatt, hlb⟩ := minStartFor_spec rs r0.filename r0 hr0 rfl
    constructor
    · obtain ⟨s, hs1, hs2, hs3⟩ := hatt
      refine ⟨s, hs1, ?_, ?_⟩
      · rw [hs2, hfn]
      · rw [hla, hs3]
    · intro s hs hsname
      rw [hla]
      exact hlb s hs (by rw [hsname, hfn])
  refine ⟨hmain, ?_, ?_⟩
  · intro r1 hr1 r2 hr2 hfn12
    obtain ⟨r0, _, hfn1, _, hla1⟩ := hchar r1 hr1
    obtain ⟨r3, _, hfn2, _, hla2⟩ := hchar r2 hr2
    rw [hla1, hla2, ← hfn1, ← hfn2, hfn12]
  · intro r hr huniq
    obtain ⟨⟨s, hs1, hs2, hs3⟩, hlb⟩ := hmain r hr
    rw [← hs3]
    exact huniq s hs1 hs2

/-- The synthetic maps snapshot of the MapsParserTest.ParseSyntheticMaps
unit test, as parsed (before the load-address pass). -/
def syntheticRegions : List Region :=
  [ { start := 0x00400000, stop := 0x0040c000,
      filename := "/usr/bin/myprog", loadAddr := 0 },
    { start := 0x0060b000, stop := 0x0060c000,
      filename := "/usr/bin/myprog", loadAddr := 0 },
    { start := 0x0060c000, stop := 0x0060d000,
      filename := "/usr/bin/myprog", loadAddr := 0 },
    { start := 0x00e0c000, stop := 0x00e2d000,
      filename := "[heap]", loadAddr := 0 },
    { start := 0x7f7a3c000000, stop := 0x7f7a3c75d000,
      filename := "/lib/x86_64-linux-gnu/libc-2.35.so", loadAddr := 0 } ]

/-- Witness for C8: in the synthetic snapshot the `[heap]` region is the
only one with its pseudo-filename, so its computed `loadAddr` equals its
own `start`. -/
theorem computeLoadAddresses_spec_witness :
    ((computeLoadAddresses syntheticRegions).getD 3 default).loadAddr
      = ((computeLoadAddresses syntheticRegions).getD 3 default).start :=
  (computeLoadAddresses_spec syntheticRegions).2.2
    ((computeLoadAddresses syntheticRegions).getD 3 default)
    (by decide) (by decide)

example :
    (runScan (fun _ => (1, MatchFlags.B8)) 1
        [{ start := 0x1000, bytes := [1, 2, 3] }]).fst.matchesFound = 3 := by
  decide

example :
    runScanParallel (fun _ => (1, MatchFlags.B8)) 1 2
        [{ start := 0x1000, bytes := [1, 2] }, { start := 0x2000, bytes := [7] }]
      = runScan (fun _ => (1, MatchFlags.B8)) 1
        [{ start := 0x1000, bytes := [1, 2] }, { start := 0x2000, bytes := [7] }] := by
  decide

example :
    minStartFor (computeLoadAddresses syntheticRegions) "/usr/bin/myprog"
      = 0x00400000 := by
  decide

end NewScanmem
